import Mathlib

/-!
# Verification of the bipbip credential vault

Shallow embedding of the `bipbip` package (`binder.py`, `filesmanager.py`).

* Byte buffers (`bytearray`) are modelled as `List Nat`.
* The Python dict `userdict` is modelled as an insertion-ordered association
  list with Python dict semantics (`dictGet?` takes the first binding,
  `dictSet` replaces it in place, appending when absent).
* The external collaborators (`json`, `base64`, `str.encode`/`bytes.decode`,
  and the `encryption` module, none of which are part of this repository)
  are modelled from the spec; each such definition carries a doc comment
  saying so.
* Secure-wipe calls (`encryption.delete_bytearray`) on caller-supplied
  buffers are observable in the embedding: each operation returns, next to
  its result, the number of wipe calls made on the caller's key buffer
  (for `Binder`) or wipe flags per buffer (for `filesmanager`).
-/

/-- A Python `bytearray` / `bytes` value, as a list of byte values. -/
abbrev Bytes := List Nat

/-- The Python exception classes raised by the code under verification. -/
inductive PyErr where
  | typeError
  | valueError
  | wrongKeyError
  | computationError
  deriving DecidableEq, Repr

instance {ε α : Type} [DecidableEq ε] [DecidableEq α] : DecidableEq (Except ε α) := fun x y =>
  match x, y with
  | .ok a, .ok b =>
    if h : a = b then .isTrue (by rw [h]) else .isFalse (fun hc => by cases hc; exact h rfl)
  | .error a, .error b =>
    if h : a = b then .isTrue (by rw [h]) else .isFalse (fun hc => by cases hc; exact h rfl)
  | .ok _, .error _ => .isFalse (fun hc => by cases hc)
  | .error _, .ok _ => .isFalse (fun hc => by cases hc)

/-- One value of the `userdict` mapping: the dict
`{'__name__': name, '__encrypted__': encrypted, '__data__': data}`
of `binder.py`, with `data` the list of 2-tuples of strings. -/
structure WebsiteInfo where
  name : String
  encrypted : Bool
  data : List (String × String)
  deriving DecidableEq, Repr

/-- The `userdict` of a `Binder`: mapping from website code to website info,
as an insertion-ordered association list (Python dict semantics). -/
abbrev Userdict := List (String × WebsiteInfo)

/-- `list(d.keys())` of a Python dict. -/
def dictKeys {α : Type} (u : List (String × α)) : List String :=
  u.map Prod.fst

/-- `d[k]` lookup of a Python dict (first binding wins). -/
def dictGet? {α : Type} (u : List (String × α)) (k : String) : Option α :=
  match u with
  | [] => none
  | (k', v) :: rest => if k' = k then some v else dictGet? rest k

/-- `d[k] = v` of a Python dict: replace the binding in place, appending at
the end when the key is absent. -/
def dictSet {α : Type} (u : List (String × α)) (k : String) (v : α) : List (String × α) :=
  match u with
  | [] => [(k, v)]
  | (k', v') :: rest => if k' = k then (k, v) :: rest else (k', v') :: dictSet rest k v

/-- `del d[k]` of a Python dict (removes the first binding). -/
def dictErase {α : Type} (u : List (String × α)) (k : String) : List (String × α) :=
  match u with
  | [] => []
  | (k', v') :: rest => if k' = k then rest else (k', v') :: dictErase rest k

/-- Modelled from the spec: `str.encode('utf-8')` of the Python standard
library (external to this repository). A string becomes the list of its
character code points. -/
def utf8_encode (s : String) : Bytes :=
  s.data.map Char.toNat

/-- Modelled from the spec: `bytes.decode('utf-8')` of the Python standard
library (external to this repository), the inverse of `utf8_encode` on its
range. -/
def utf8_decode (bs : Bytes) : String :=
  String.mk (bs.map Char.ofNat)

/-- Modelled from the spec: the composition
`base64.b64encode(buffer).decode('utf-8')` used by `binder.py` to store a
ciphertext as a text field — an injective text encoding of a byte buffer
(the `base64` module is external to this repository). -/
def b64encode_text (bs : Bytes) : String :=
  String.mk (bs.map Char.ofNat)

/-- Modelled from the spec: the composition
`bytearray(base64.b64decode(text))` used by `binder.py` to recover the
ciphertext bytes from a stored text field; inverse of `b64encode_text` on
its range. -/
def b64decode_text (s : String) : Bytes :=
  s.data.map Char.toNat

/-- A byte buffer whose entries (and length) are in the injective range of
the text encoding; every real `bytearray` key (bytes < 256, length < 55296)
satisfies this. -/
def validKeyBytes (k : Bytes) : Prop :=
  (∀ b ∈ k, Nat.isValidChar b) ∧ Nat.isValidChar k.length

instance (k : Bytes) : Decidable (validKeyBytes k) := by
  unfold validKeyBytes Nat.isValidChar
  infer_instance

/-- Modelled from the spec: the Crypto Engine's
`encryption.data_to_encryptedtext(data, key, iterations)` as used by
`binder.py` (the `encryption` module is external to this repository).
Symbolic cipher: the ciphertext records the iteration count, the key and
the payload, standing in for a self-describing authenticated ciphertext. -/
def encryption.data_to_encryptedtext (data key : Bytes) (iterations : Nat) : Bytes :=
  iterations :: key.length :: (key ++ data)

/-- Modelled from the spec: the Crypto Engine's
`encryption.encryptedtext_to_data(encryptedtext, key, iterations)` as used
by `binder.py`: decryption succeeds exactly when the supplied key and
iteration count match the ones the ciphertext was produced with, and fails
with `WrongKeyError` otherwise (also on a malformed/modified ciphertext). -/
def encryption.encryptedtext_to_data (encryptedtext key : Bytes) (iterations : Nat) :
    Except PyErr Bytes :=
  match encryptedtext with
  | i :: n :: rest =>
    if i = iterations ∧ n = key.length ∧ rest.take key.length = key then
      .ok (rest.drop key.length)
    else
      .error .wrongKeyError
  | _ => .error .wrongKeyError

/-- Modelled from the spec: `encryption.random_bytearray(n)` — a fresh
random buffer of length `n`, the randomness source being modelled as a
stream `rand` of byte values. -/
def encryption.random_bytearray (rand : Nat → Nat) (n : Nat) : Bytes :=
  (List.range n).map rand

/-- Modelled from the spec: serialization of one stored string by the
external `json` library — a length-prefixed sequence of character codes. -/
def encodeStr (s : String) : Bytes :=
  s.length :: s.data.map Char.toNat

/-- Modelled from the spec: serialization of one stored boolean by the
external `json` library. -/
def encodeBool (b : Bool) : Bytes :=
  [if b then 1 else 0]

/-- Serialization of one `(field_type, field_value)` entry of `__data__`. -/
def encodePair (p : String × String) : Bytes :=
  encodeStr p.1 ++ encodeStr p.2

/-- Serialization of one website info dict: `__name__`, `__encrypted__`,
then the length-prefixed `__data__` list. -/
def encodeInfo (i : WebsiteInfo) : Bytes :=
  encodeStr i.name ++ encodeBool i.encrypted ++
    (i.data.length :: i.data.flatMap encodePair)

/-- Modelled from the spec: `json.dumps(userdict).encode('utf-8')` of the
external `json` library, as an injective byte encoding of the mapping: the
length-prefixed sequence of `code : info` entries. -/
def encodeStore (u : Userdict) : Bytes :=
  u.length :: u.flatMap (fun e => encodeStr e.1 ++ encodeInfo e.2)

/-- Parsing of one string: inverse of `encodeStr` on a byte stream,
returning the remaining stream. -/
def decodeStr (bs : Bytes) : Option (String × Bytes) :=
  match bs with
  | [] => none
  | n :: rest =>
    if n ≤ rest.length then
      some (String.mk ((rest.take n).map Char.ofNat), rest.drop n)
    else
      none

/-- Parsing of one boolean: inverse of `encodeBool` on a byte stream. -/
def decodeBool (bs : Bytes) : Option (Bool × Bytes) :=
  match bs with
  | 0 :: rest => some (false, rest)
  | 1 :: rest => some (true, rest)
  | _ => none

/-- Parsing of one `__data__` entry. -/
def decodePair (bs : Bytes) : Option ((String × String) × Bytes) :=
  match decodeStr bs with
  | none => none
  | some (t, r1) =>
    match decodeStr r1 with
    | none => none
    | some (v, r2) => some ((t, v), r2)

/-- Parsing of a `__data__` list of known length. -/
def decodePairList (n : Nat) (bs : Bytes) : Option (List (String × String) × Bytes) :=
  match n with
  | 0 => some ([], bs)
  | n + 1 =>
    match decodePair bs with
    | none => none
    | some (p, r1) =>
      match decodePairList n r1 with
      | none => none
      | some (l, r2) => some (p :: l, r2)

/-- Parsing of one website info dict. -/
def decodeInfo (bs : Bytes) : Option (WebsiteInfo × Bytes) :=
  match decodeStr bs with
  | none => none
  | some (nm, r1) =>
    match decodeBool r1 with
    | none => none
    | some (b, r2) =>
      match r2 with
      | [] => none
      | cnt :: r3 =>
        match decodePairList cnt r3 with
        | none => none
        | some (d, r4) => some (⟨nm, b, d⟩, r4)

/-- Parsing of a known number of `code : info` entries. -/
def decodeEntries (n : Nat) (bs : Bytes) : Option (Userdict × Bytes) :=
  match n with
  | 0 => some ([], bs)
  | n + 1 =>
    match decodeStr bs with
    | none => none
    | some (c, r1) =>
      match decodeInfo r1 with
      | none => none
      | some (i, r2) =>
        match decodeEntries n r2 with
        | none => none
        | some (rest, r3) => some ((c, i) :: rest, r3)

/-- Modelled from the spec: `json.loads(data.decode('utf-8'))` of the
external `json` library — the inverse of `encodeStore`, failing
(`JSONDecodeError`) when the bytes are not a full serialized store. -/
def decodeStore (bs : Bytes) : Option Userdict :=
  match bs with
  | [] => none
  | cnt :: rest =>
    match decodeEntries cnt rest with
    | none => none
    | some (u, r) => if r = [] then some u else none

/-- `Binder.load` (binder.py lines 34-58): a zero-length buffer yields the
empty store, otherwise the buffer is deserialized. The second component of
the result is the contents of the caller's `data` buffer when the call
returns: the source never mutates `data`, so it comes back unchanged
(despite the docstring's claim that it is deleted). A parse failure is
`none` in the first component (`JSONDecodeError`). -/
def Binder.load (data : Bytes) : Option Userdict × Bytes :=
  if data.isEmpty then (some [], data) else (decodeStore data, data)

/-- `Binder.dump` (binder.py lines 60-73): an empty store dumps to a
zero-length byte buffer, otherwise to the serialized mapping. -/
def Binder.dump (u : Userdict) : Bytes :=
  if u.isEmpty then [] else encodeStore u

/-- The class attribute `Binder.encryption_iterations`. -/
def Binder.encryption_iterations : Nat := 100000

/-- The class attribute `Binder.code_lenght` (typo kept from the source). -/
def Binder.code_lenght : Nat := 10

/-- `Binder.listing_website_codes` (binder.py lines 75-87): the dict keys
with the private (reserved) codes filtered out. `priv` is the ambient value
of the class attribute `Binder.private_website_code`. -/
def Binder.listing_website_codes (priv : List String) (u : Userdict) : List String :=
  (dictKeys u).filter (fun c => decide (c ∉ priv))

/-- `Binder.is_website_code` (binder.py lines 89-110): membership in the
listed (non-reserved) website codes. -/
def Binder.is_website_code (priv : List String) (u : Userdict) (website_code : String) : Bool :=
  decide (website_code ∈ Binder.listing_website_codes priv u)

/-- `Binder.is_encrypted_website_data` (binder.py lines 202-225): raises
`ValueError` when the code is not an existing website, else returns the
`__encrypted__` flag. (The inner `none` branch of the lookup is
unreachable: every listed code is a dict key.) -/
def Binder.is_encrypted_website_data (priv : List String) (u : Userdict)
    (website_code : String) : Except PyErr Bool :=
  if !(Binder.is_website_code priv u website_code) then
    .error .valueError
  else
    match dictGet? u website_code with
    | some info => .ok info.encrypted
    | none => .error .valueError

/-- The outcome of a `Binder` accessor call: the store after the call (the
source mutates `self.userdict`'s lists in place), the number of
`encryption.delete_bytearray` calls made on the caller's `user_key`
buffer, and the returned value or raised exception. -/
structure CallOut (α : Type) where
  store : Userdict
  keyWipes : Nat
  result : Except PyErr α
  deriving DecidableEq

/-- The decryption loop of `Binder.get_website_data` (binder.py lines
290-298) over the stored `__data__` list: each entry's text is
base64-decoded and decrypted with (a copy of) `key`; on success the entry
is replaced in place by the plaintext tuple; on `WrongKeyError` the key is
wiped and the exception propagates, leaving the remaining entries
untouched; after a full pass the key is wiped. Returns the final list, the
number of wipes of `key`, and whether a `WrongKeyError` was raised. -/
def Binder.getDataLoop (key : Bytes) :
    List (String × String) → List (String × String) × Nat × Bool
  | [] => ([], 1, false)
  | (t, v) :: rest =>
    match encryption.encryptedtext_to_data (b64decode_text v) key Binder.encryption_iterations with
    | .error _ => ((t, v) :: rest, 1, true)
    | .ok pt =>
      let d := (t, utf8_decode pt)
      let out := Binder.getDataLoop key rest
      (d :: out.1, out.2)

/-- `Binder.get_website_data` (binder.py lines 255-299). Reads the
`__encrypted__` flag (raising `ValueError` for an unknown code); for a
plaintext site returns the stored list as is, without touching the key;
for an encrypted site requires a key (`TypeError` when absent), runs the
decryption loop — which mutates the stored list in place — and returns the
decrypted list or re-raises `WrongKeyError`. -/
def Binder.get_website_data (priv : List String) (u : Userdict) (website_code : String)
    (user_key : Option Bytes) : CallOut (List (String × String)) :=
  match Binder.is_encrypted_website_data priv u website_code with
  | .error e => ⟨u, 0, .error e⟩
  | .ok false =>
    match dictGet? u website_code with
    | some info => ⟨u, 0, .ok info.data⟩
    | none => ⟨u, 0, .error .valueError⟩
  | .ok true =>
    match user_key with
    | none => ⟨u, 0, .error .typeError⟩
    | some key =>
      match dictGet? u website_code with
      | none => ⟨u, 0, .error .valueError⟩
      | some info =>
        let out := Binder.getDataLoop key info.data
        let u' := dictSet u website_code { info with data := out.1 }
        if out.2.2 then
          ⟨u', out.2.1, .error .wrongKeyError⟩
        else
          ⟨u', out.2.1, .ok out.1⟩

/-- One stored entry of an encrypted site, as `Binder.set_website_data`
produces it (binder.py lines 336-339): the field value is the
base64-encoded encryption of the UTF-8 bytes of the plaintext under `key`
at the fixed iteration count. -/
def Binder.encStoredDatum (key : Bytes) (t p : String) : String × String :=
  (t, b64encode_text (encryption.data_to_encryptedtext (utf8_encode p) key
        Binder.encryption_iterations))

/-- The encryption loop of `Binder.set_website_data` (binder.py lines
336-339): each plaintext tuple is replaced by its encrypted, encoded
form. -/
def Binder.setDataLoop (key : Bytes) (l : List (String × String)) : List (String × String) :=
  l.map (fun d => Binder.encStoredDatum key d.1 d.2)

/-- `Binder.set_website_data` (binder.py lines 301-342). The structural
validation of `website_data` (list of 2-tuples of strings) always passes
in this typed embedding. For a plaintext site the data is stored verbatim
and the key is not touched; for an encrypted site a key is required
(`TypeError` when absent), every tuple is encrypted, the result stored,
and the key wiped once. -/
def Binder.set_website_data (priv : List String) (u : Userdict) (website_code : String)
    (website_data : List (String × String)) (user_key : Option Bytes) : CallOut Unit :=
  match Binder.is_encrypted_website_data priv u website_code with
  | .error e => ⟨u, 0, .error e⟩
  | .ok false =>
    match dictGet? u website_code with
    | some info => ⟨dictSet u website_code { info with data := website_data }, 0, .ok ()⟩
    | none => ⟨u, 0, .error .valueError⟩
  | .ok true =>
    match user_key with
    | none => ⟨u, 0, .error .typeError⟩
    | some key =>
      match dictGet? u website_code with
      | none => ⟨u, 0, .error .valueError⟩
      | some info =>
        ⟨dictSet u website_code { info with data := Binder.setDataLoop key website_data },
         1, .ok ()⟩

/-- `Binder.set_website_data_encryption` as written in the source
(binder.py lines 227-253): the `def` omits the `self` parameter, so the
standard method invocation `binder.set_website_data_encryption(code, flag)`
passes three positional arguments (the receiver, the code and the flag) to
a two-parameter function and raises `TypeError` before the body runs; the
store is never modified and no flag is ever set. -/
def Binder.set_website_data_encryption_method (u : Userdict) (website_code : String)
    (set_encrypted : Bool) : CallOut Unit :=
  ⟨u, 0, .error .typeError⟩

/-- The character pool `string.ascii_letters + string.digits` of
`Binder.generate_website_code` (binder.py line 121). -/
def Binder.code_chars : List Char :=
  "abcdefghijklmnopqrstuvwxyzABCDEFGHIJKLMNOPQRSTUVWXYZ0123456789".toList

/-- One candidate code: `code_lenght` draws of `random.choice` from the
pool, the random source being modelled as a stream `rnd` of naturals read
from offset `off`. -/
def Binder.make_code (rnd : Nat → Nat) (off : Nat) : String :=
  String.mk ((List.range Binder.code_lenght).map
    (fun i => Binder.code_chars.getD (rnd (off + i) % Binder.code_chars.length) 'a'))

/-- `Binder.generate_website_code` (binder.py lines 112-126): draw a
candidate, retry while it collides with a listed website code or a private
(reserved) code. `fuel` bounds the number of draws (the source loops
unboundedly); `none` means fuel ran out before a fresh code was found. -/
def Binder.generate_website_code (priv : List String) (u : Userdict) (rnd : Nat → Nat) :
    Nat → Nat → Option String
  | 0, _ => none
  | fuel + 1, off =>
    let c := Binder.make_code rnd off
    if c ∈ Binder.listing_website_codes priv u ∨ c ∈ priv then
      Binder.generate_website_code priv u rnd fuel (off + Binder.code_lenght)
    else
      some c

/-- The on-disk account state relevant to the core: each existing account
directory, mapped to the contents of its `encryptedtext.bin` blob. -/
abbrev FS := List (String × Bytes)

/-- The observable filesystem and buffer actions of `delete_account`, in
the order the source performs them. -/
inductive FsEvent where
  | readBlob (account : String) (content : Bytes)
  | writeBlob (account : String) (content : Bytes)
  | wipeBuffer (buffer : Bytes)
  | removeTree (account : String)
  deriving DecidableEq, Repr

/-- `filesmanager.is_valid_account_name` (filesmanager.py lines 41-69):
raises `ValueError` on an empty name, else matches `^[A-Za-z0-9_-]+$`. -/
def filesmanager.is_valid_account_name (account : String) : Except PyErr Bool :=
  if account = "" then
    .error .valueError
  else
    .ok (account.data.all (fun c => c.isAlphanum || c == '-' || c == '_'))

/-- `filesmanager.exist_account` (filesmanager.py lines 71-96): raises
`ValueError` for an invalid name, else reports whether the account's
directory exists. -/
def filesmanager.exist_account (fs : FS) (account : String) : Except PyErr Bool :=
  match filesmanager.is_valid_account_name account with
  | .error e => .error e
  | .ok false => .error .valueError
  | .ok true => .ok ((dictGet? fs account).isSome)

/-- `filesmanager.delete_account` (filesmanager.py lines 484-516): resolve
the account path (`ValueError` when invalid or absent), read the encrypted
blob, overwrite the blob file with fresh random bytes of the same length,
securely wipe the in-memory buffer that held the old ciphertext, then
remove the account's directory tree. Returns the filesystem after the
call and the ordered list of observable actions. -/
def filesmanager.delete_account (fs : FS) (rand : Nat → Nat) (account : String) :
    Except PyErr (FS × List FsEvent) :=
  match filesmanager.exist_account fs account with
  | .error e => .error e
  | .ok false => .error .valueError
  | .ok true =>
    match dictGet? fs account with
    | none => .error .valueError
    | some encryptedtext =>
      let fresh := encryption.random_bytearray rand encryptedtext.length
      .ok (dictErase fs account,
           [FsEvent.readBlob account encryptedtext,
            FsEvent.writeBlob account fresh,
            FsEvent.wipeBuffer encryptedtext,
            FsEvent.removeTree account])

/-- The outcome of a vault (`filesmanager`) blob operation: the
filesystem after the call, whether each caller-supplied secret buffer was
wiped by `encryption.delete_bytearray`, and the result or exception. -/
structure VaultOut (α : Type) where
  fs : FS
  passwordWiped : Bool
  pinWiped : Bool
  dataWiped : Bool
  result : Except PyErr α
  deriving DecidableEq

/-- `filesmanager.load_encryptedtext` (filesmanager.py lines 518-570):
resolve the blob path (`ValueError` when the account is invalid or
absent), reject empty password or pin (`ValueError`, no wiping), read the
blob, call the Crypto Engine decrypt `encryption.encryptedtext_to_data(
encryptedtext, password, pin=pin)` — modelled as the abstract parameter
`engine` returning `(is_error, errno, data)` since the engine is external
to this repository — and on an engine error wipe `password` and `pin`
before raising `ComputationError`; on success return the data without
wiping. -/
def filesmanager.load_encryptedtext (fs : FS) (engine : Bytes → Bytes → Bytes → Bool × Nat × Bytes)
    (account : String) (password pin : Bytes) : VaultOut Bytes :=
  match filesmanager.exist_account fs account with
  | .error e => ⟨fs, false, false, false, .error e⟩
  | .ok false => ⟨fs, false, false, false, .error .valueError⟩
  | .ok true =>
    if password = [] then ⟨fs, false, false, false, .error .valueError⟩
    else if pin = [] then ⟨fs, false, false, false, .error .valueError⟩
    else
      match dictGet? fs account with
      | none => ⟨fs, false, false, false, .error .valueError⟩
      | some encryptedtext =>
        match engine encryptedtext password pin with
        | (true, _, _) => ⟨fs, true, true, false, .error .computationError⟩
        | (false, _, data) => ⟨fs, false, false, false, .ok data⟩

/-- `filesmanager.dumps_encryptedtext` (filesmanager.py lines 572-620):
resolve the blob path, reject empty password or pin (`ValueError`, no
wiping), call the Crypto Engine encrypt `encryption.data_to_encryptedtext(
data, password, pin=pin)` — modelled as the abstract parameter `engine`
returning `(is_error, errno, encryptedtext)` — and on an engine error wipe
`password`, `pin` and `data` before raising `ComputationError`, leaving
the blob untouched; on success overwrite the blob. -/
def filesmanager.dumps_encryptedtext (fs : FS) (engine : Bytes → Bytes → Bytes → Bool × Nat × Bytes)
    (account : String) (password pin data : Bytes) : VaultOut Unit :=
  match filesmanager.exist_account fs account with
  | .error e => ⟨fs, false, false, false, .error e⟩
  | .ok false => ⟨fs, false, false, false, .error .valueError⟩
  | .ok true =>
    if password = [] then ⟨fs, false, false, false, .error .valueError⟩
    else if pin = [] then ⟨fs, false, false, false, .error .valueError⟩
    else
      match engine data password pin with
      | (true, _, _) => ⟨fs, true, true, true, .error .computationError⟩
      | (false, _, encryptedtext) =>
        ⟨dictSet fs account encryptedtext, false, false, false, .ok ()⟩

/-! ## Helper lemmas -/

theorem char_toNat_ofNat {n : Nat} (h : n.isValidChar) : (Char.ofNat n).toNat = n := by
  simp [Char.ofNat, dif_pos h, Char.ofNatAux, Char.toNat, UInt32.toNat, BitVec.toNat_ofNatLt]

theorem utf8_roundtrip (s : String) : utf8_decode (utf8_encode s) = s := by
  cases s with
  | mk l =>
    simp only [utf8_encode, utf8_decode, List.map_map]
    congr 1
    exact List.map_congr_left (fun c _ => Char.ofNat_toNat c) |>.trans (List.map_id l)

theorem utf8_encode_valid (s : String) : ∀ b ∈ utf8_encode s, Nat.isValidChar b := by
  intro b hb
  simp only [utf8_encode, List.mem_map] at hb
  obtain ⟨c, _, rfl⟩ := hb
  exact c.valid

theorem text_roundtrip (bs : Bytes) (h : ∀ b ∈ bs, Nat.isValidChar b) :
    b64decode_text (b64encode_text bs) = bs := by
  simp only [b64encode_text, b64decode_text, List.map_map]
  calc (bs.map (fun b => (Char.ofNat b).toNat)) = bs.map id :=
        List.map_congr_left (fun b hb => char_toNat_ofNat (h b hb))
    _ = bs := List.map_id bs

theorem iterations_valid : Nat.isValidChar Binder.encryption_iterations := by
  right
  constructor <;> decide

theorem decrypt_encrypt (d k' k : Bytes) (i : Nat) :
    encryption.encryptedtext_to_data (encryption.data_to_encryptedtext d k' i) k i =
      if k' = k then .ok d else .error .wrongKeyError := by
  by_cases hk : k' = k
  · subst hk
    simp [encryption.data_to_encryptedtext, encryption.encryptedtext_to_data,
      List.take_left, List.drop_left]
  · have hcond : ¬(True ∧ k'.length = k.length ∧ (k' ++ d).take k.length = k) := by
      rintro ⟨-, hlen, htake⟩
      apply hk
      rw [← hlen] at htake
      rw [← htake, List.take_left]
    simp only [encryption.data_to_encryptedtext, encryption.encryptedtext_to_data,
      eq_self_iff_true]
    rw [if_neg hcond, if_neg hk]

theorem ciphertext_valid (d k : Bytes) (hk : validKeyBytes k) (hd : ∀ b ∈ d, Nat.isValidChar b) :
    ∀ b ∈ encryption.data_to_encryptedtext d k Binder.encryption_iterations, Nat.isValidChar b := by
  intro b hb
  simp only [encryption.data_to_encryptedtext, List.mem_cons, List.mem_append] at hb
  rcases hb with rfl | rfl | h | h
  · exact iterations_valid
  · exact hk.2
  · exact hk.1 b h
  · exact hd b h

theorem dictGet?_dictSet {α : Type} (u : List (String × α)) (k : String) (v : α) :
    dictGet? (dictSet u k v) k = some v := by
  induction u with
  | nil => simp [dictSet, dictGet?]
  | cons e rest ih =>
    obtain ⟨k', v'⟩ := e
    by_cases h : k' = k
    · simp [dictSet, dictGet?, h]
    · simp [dictSet, dictGet?, h, ih]

theorem dictKeys_dictSet {α : Type} (u : List (String × α)) (k : String) (v w : α)
    (h : dictGet? u k = some w) : dictKeys (dictSet u k v) = dictKeys u := by
  induction u with
  | nil => simp [dictGet?] at h
  | cons e rest ih =>
    obtain ⟨k', v'⟩ := e
    by_cases hk : k' = k
    · subst hk
      simp [dictSet, dictKeys]
    · simp only [dictGet?, if_neg hk] at h
      simp only [dictSet, if_neg hk, dictKeys, List.map_cons, List.cons.injEq, true_and]
      exact ih h

theorem listed_iff (priv : List String) (u : Userdict) (c : String) :
    Binder.is_website_code priv u c = true ↔ c ∈ dictKeys u ∧ c ∉ priv := by
  unfold Binder.is_website_code Binder.listing_website_codes
  simp [List.mem_filter]

theorem dictGet?_isSome_of_mem_keys {α : Type} (u : List (String × α)) (k : String)
    (h : k ∈ dictKeys u) : (dictGet? u k).isSome := by
  induction u with
  | nil => simp [dictKeys] at h
  | cons e rest ih =>
    obtain ⟨k', v'⟩ := e
    by_cases hk : k' = k
    · simp [dictGet?, hk]
    · simp only [dictKeys, List.map_cons, List.mem_cons] at h
      rcases h with h | h
      · exact absurd h.symm hk
      · simpa [dictGet?, hk] using ih h

theorem decodeStr_encodeStr (s : String) (r : Bytes) :
    decodeStr (encodeStr s ++ r) = some (s, r) := by
  cases s with
  | mk l =>
    have hmaplen : (l.map Char.toNat).length = l.length := List.length_map l Char.toNat
    have hlen : l.length ≤ (l.map Char.toNat ++ r).length := by
      rw [List.length_append, hmaplen]
      omega
    have hid : l.map (Char.ofNat ∘ Char.toNat) = l :=
      (List.map_congr_left (fun c _ => Char.ofNat_toNat c)).trans (List.map_id l)
    simp only [encodeStr, decodeStr, String.length, List.cons_append, if_pos hlen,
      List.take_left' hmaplen, List.drop_left' hmaplen, List.map_map, hid]

theorem decodeBool_encodeBool (b : Bool) (r : Bytes) :
    decodeBool (encodeBool b ++ r) = some (b, r) := by
  cases b <;> rfl

theorem decodePair_encodePair (p : String × String) (r : Bytes) :
    decodePair (encodePair p ++ r) = some (p, r) := by
  obtain ⟨t, v⟩ := p
  simp only [encodePair, decodePair, List.append_assoc, decodeStr_encodeStr]

theorem decodePairList_encode (l : List (String × String)) (r : Bytes) :
    decodePairList l.length (l.flatMap encodePair ++ r) = some (l, r) := by
  induction l generalizing r with
  | nil => simp [decodePairList]
  | cons p rest ih =>
    simp only [List.length_cons, List.flatMap_cons, List.append_assoc, decodePairList,
      decodePair_encodePair, ih]

theorem decodeInfo_encodeInfo (i : WebsiteInfo) (r : Bytes) :
    decodeInfo (encodeInfo i ++ r) = some (i, r) := by
  obtain ⟨nm, b, d⟩ := i
  simp only [encodeInfo, decodeInfo, List.append_assoc, List.cons_append,
    decodeStr_encodeStr, decodeBool_encodeBool, decodePairList_encode]

theorem decodeEntries_encode (u : Userdict) (r : Bytes) :
    decodeEntries u.length (u.flatMap (fun e => encodeStr e.1 ++ encodeInfo e.2) ++ r) =
      some (u, r) := by
  induction u generalizing r with
  | nil => simp [decodeEntries]
  | cons e rest ih =>
    obtain ⟨c, i⟩ := e
    simp only [List.length_cons, List.flatMap_cons, List.append_assoc, decodeEntries,
      decodeStr_encodeStr, decodeInfo_encodeInfo, ih]

theorem decodeStore_encodeStore (u : Userdict) : decodeStore (encodeStore u) = some u := by
  simp only [encodeStore, decodeStore]
  have h := decodeEntries_encode u []
  rw [List.append_nil] at h
  simp only [h, if_true, eq_self_iff_true]

theorem getDataLoop_wipes (key : Bytes) (l : List (String × String)) :
    (Binder.getDataLoop key l).2.1 = 1 := by
  induction l with
  | nil => rfl
  | cons d rest ih =>
    obtain ⟨t, v⟩ := d
    cases h : encryption.encryptedtext_to_data (b64decode_text v) key
        Binder.encryption_iterations with
    | error e => simp [Binder.getDataLoop, h]
    | ok pt => simp [Binder.getDataLoop, h, ih]

theorem stored_roundtrip (p : String) (ki : Bytes) (hvk : validKeyBytes ki) :
    b64decode_text (b64encode_text (encryption.data_to_encryptedtext (utf8_encode p) ki
        Binder.encryption_iterations)) =
      encryption.data_to_encryptedtext (utf8_encode p) ki Binder.encryption_iterations :=
  text_roundtrip _ (ciphertext_valid (utf8_encode p) ki hvk (utf8_encode_valid p))

theorem getDataLoop_setDataLoop (k : Bytes) (hk : validKeyBytes k)
    (D : List (String × String)) :
    Binder.getDataLoop k (Binder.setDataLoop k D) = (D, 1, false) := by
  induction D with
  | nil => rfl
  | cons d rest ih =>
    obtain ⟨t, p⟩ := d
    have ih' : Binder.getDataLoop k (List.map (fun d => (d.1, b64encode_text
        (encryption.data_to_encryptedtext (utf8_encode d.2) k
          Binder.encryption_iterations))) rest) = (rest, 1, false) := by
      simpa only [Binder.setDataLoop, Binder.encStoredDatum] using ih
    simp only [Binder.setDataLoop, List.map_cons, Binder.encStoredDatum, Binder.getDataLoop,
      stored_roundtrip p k hk, decrypt_encrypt, eq_self_iff_true, if_true, utf8_roundtrip, ih']

theorem getDataLoop_enc (k : Bytes) (trips : List (String × String × Bytes))
    (hv : ∀ x ∈ trips, validKeyBytes x.2.2) :
    Binder.getDataLoop k (trips.map (fun x => Binder.encStoredDatum x.2.2 x.1 x.2.1)) =
      ((trips.takeWhile (fun x => decide (x.2.2 = k))).map (fun x => (x.1, x.2.1)) ++
         (trips.dropWhile (fun x => decide (x.2.2 = k))).map
           (fun x => Binder.encStoredDatum x.2.2 x.1 x.2.1),
       1,
       !(trips.all (fun x => decide (x.2.2 = k)))) := by
  induction trips with
  | nil => rfl
  | cons x rest ih =>
    obtain ⟨t, p, ki⟩ := x
    have hvk : validKeyBytes ki := hv _ (List.mem_cons_self _ _)
    have ih' := ih (fun y hy => hv y (List.mem_cons_of_mem _ hy))
    by_cases hk : ki = k
    · subst hk
      have hd : decide ((t, p, ki).2.2 = ki) = true := by simp
      simp only [List.map_cons, List.takeWhile_cons, List.dropWhile_cons, List.all_cons, hd,
        if_true, Bool.true_and, List.map_cons] at ih' ⊢
      simp only [Binder.encStoredDatum, Binder.getDataLoop, stored_roundtrip p ki hvk,
        decrypt_encrypt, eq_self_iff_true, if_true, utf8_roundtrip] at ih' ⊢
      simp [ih', utf8_roundtrip]
    · have hd : decide ((t, p, ki).2.2 = k) = false := by simp [hk]
      simp only [List.map_cons, List.takeWhile_cons, List.dropWhile_cons, List.all_cons, hd,
        if_false, Bool.false_and, Bool.not_false, List.map_nil, List.nil_append]
      simp [Binder.encStoredDatum, Binder.getDataLoop, stored_roundtrip p ki hvk,
        decrypt_encrypt, if_neg hk]

theorem takeWhile_of_all {α : Type} (p : α → Bool) (l : List α) (h : ∀ a ∈ l, p a = true) :
    l.takeWhile p = l := by
  induction l with
  | nil => rfl
  | cons a rest ih =>
    rw [List.takeWhile_cons_of_pos (h a (List.mem_cons_self a rest)),
      ih (fun b hb => h b (List.mem_cons_of_mem a hb))]

theorem dropWhile_of_all {α : Type} (p : α → Bool) (l : List α) (h : ∀ a ∈ l, p a = true) :
    l.dropWhile p = [] := by
  induction l with
  | nil => rfl
  | cons a rest ih =>
    rw [List.dropWhile_cons_of_pos (h a (List.mem_cons_self a rest)),
      ih (fun b hb => h b (List.mem_cons_of_mem a hb))]

theorem is_encrypted_eq (priv : List String) (u : Userdict) (code : String) (info : WebsiteInfo)
    (hc : Binder.is_website_code priv u code = true) (hi : dictGet? u code = some info) :
    Binder.is_encrypted_website_data priv u code = .ok info.encrypted := by
  unfold Binder.is_encrypted_website_data
  rw [hc]
  simp [hi]

theorem get_website_data_encrypted (priv : List String) (u : Userdict) (code : String)
    (k : Bytes) (info : WebsiteInfo)
    (hc : Binder.is_website_code priv u code = true) (hi : dictGet? u code = some info)
    (he : info.encrypted = true) :
    Binder.get_website_data priv u code (some k) =
      (if (Binder.getDataLoop k info.data).2.2 then
        ⟨dictSet u code { info with data := (Binder.getDataLoop k info.data).1 },
         (Binder.getDataLoop k info.data).2.1, .error .wrongKeyError⟩
      else
        ⟨dictSet u code { info with data := (Binder.getDataLoop k info.data).1 },
         (Binder.getDataLoop k info.data).2.1, .ok (Binder.getDataLoop k info.data).1⟩) := by
  unfold Binder.get_website_data
  rw [is_encrypted_eq priv u code info hc hi, he]
  simp [hi, he]

theorem get_website_data_plain (priv : List String) (u : Userdict) (code : String)
    (key : Option Bytes) (info : WebsiteInfo)
    (hc : Binder.is_website_code priv u code = true) (hi : dictGet? u code = some info)
    (he : info.encrypted = false) :
    Binder.get_website_data priv u code key = ⟨u, 0, .ok info.data⟩ := by
  unfold Binder.get_website_data
  rw [is_encrypted_eq priv u code info hc hi, he]
  simp [hi, he]

theorem set_website_data_encrypted (priv : List String) (u : Userdict) (code : String)
    (D : List (String × String)) (k : Bytes) (info : WebsiteInfo)
    (hc : Binder.is_website_code priv u code = true) (hi : dictGet? u code = some info)
    (he : info.encrypted = true) :
    Binder.set_website_data priv u code D (some k) =
      ⟨dictSet u code { info with data := Binder.setDataLoop k D }, 1, .ok ()⟩ := by
  unfold Binder.set_website_data
  rw [is_encrypted_eq priv u code info hc hi, he]
  simp [hi, he]

theorem set_website_data_plain (priv : List String) (u : Userdict) (code : String)
    (D : List (String × String)) (key : Option Bytes) (info : WebsiteInfo)
    (hc : Binder.is_website_code priv u code = true) (hi : dictGet? u code = some info)
    (he : info.encrypted = false) :
    Binder.set_website_data priv u code D key =
      ⟨dictSet u code { info with data := D }, 0, .ok ()⟩ := by
  unfold Binder.set_website_data
  rw [is_encrypted_eq priv u code info hc hi, he]
  simp [hi, he]

/-! ## Claim theorems -/

/-- C1: for every Record Store state, dumping and then loading reconstructs
an observationally equal store (same codes, names, encrypted flags and
data); the empty store dumps to a zero-length byte sequence and loading a
zero-length byte sequence yields the empty store. -/
theorem dump_load_round_trip :
    (∀ u : Userdict, (Binder.load (Binder.dump u)).1 = some u) ∧
    Binder.dump [] = [] ∧ (Binder.load ([] : Bytes)).1 = some ([] : Userdict) := by
  refine ⟨?_, rfl, rfl⟩
  intro u
  cases u with
  | nil => rfl
  | cons e rest =>
    have h1 : Binder.dump (e :: rest) = encodeStore (e :: rest) := by
      simp [Binder.dump]
    have h2 : (encodeStore (e :: rest)).isEmpty = false := by
      simp [encodeStore]
    rw [h1]
    unfold Binder.load
    rw [h2]
    simp [decodeStore_encodeStore]

/-- C2: for a site flagged encrypted and any well-formed data list `D` and
valid key `k`, `set_website_data(code, D, key=k)` followed by
`get_website_data(code, key=k)` (with a fresh copy of the same key value)
returns a sequence equal to `D`. -/
theorem set_then_get_round_trip (priv : List String) (u : Userdict) (code : String)
    (D : List (String × String)) (k : Bytes) (info : WebsiteInfo)
    (hc : Binder.is_website_code priv u code = true)
    (hi : dictGet? u code = some info)
    (he : info.encrypted = true)
    (hk : validKeyBytes k) :
    (Binder.set_website_data priv u code D (some k)).result = .ok () ∧
    (Binder.get_website_data priv (Binder.set_website_data priv u code D (some k)).store
        code (some k)).result = .ok D := by
  rw [set_website_data_encrypted priv u code D k info hc hi he]
  refine ⟨rfl, ?_⟩
  have hi' : dictGet? (dictSet u code { info with data := Binder.setDataLoop k D }) code =
      some { info with data := Binder.setDataLoop k D } :=
    dictGet?_dictSet u code _
  have hkeys : dictKeys (dictSet u code { info with data := Binder.setDataLoop k D }) =
      dictKeys u :=
    dictKeys_dictSet u code _ info hi
  have hc' : Binder.is_website_code priv
      (dictSet u code { info with data := Binder.setDataLoop k D }) code = true := by
    rw [listed_iff, hkeys]
    exact (listed_iff priv u code).mp hc
  rw [get_website_data_encrypted priv _ code k _ hc' hi' he]
  simp only [getDataLoop_setDataLoop k hk D]
  simp

/-- Witness for C2 at a concrete store, data list and key. -/
theorem set_then_get_round_trip_witness :
    (Binder.is_website_code [] [("abc", WebsiteInfo.mk "Amazon" true [])] "abc" = true ∧
     dictGet? [("abc", WebsiteInfo.mk "Amazon" true [])] "abc" =
       some (WebsiteInfo.mk "Amazon" true []) ∧
     (WebsiteInfo.mk "Amazon" true []).encrypted = true ∧
     validKeyBytes [3, 1]) ∧
    ((Binder.set_website_data [] [("abc", WebsiteInfo.mk "Amazon" true [])] "abc"
        [("user", "bob")] (some [3, 1])).result = .ok () ∧
     (Binder.get_website_data []
        (Binder.set_website_data [] [("abc", WebsiteInfo.mk "Amazon" true [])] "abc"
          [("user", "bob")] (some [3, 1])).store "abc" (some [3, 1])).result =
       .ok [("user", "bob")]) :=
  ⟨⟨by decide, by decide, by decide, by decide⟩,
   set_then_get_round_trip [] [("abc", WebsiteInfo.mk "Amazon" true [])] "abc"
     [("user", "bob")] [3, 1] (WebsiteInfo.mk "Amazon" true [])
     (by decide) (by decide) (by decide) (by decide)⟩

/-- C3: for a site flagged encrypted whose stored entries were encrypted
under per-tuple keys, `get_website_data` with key `k` wipes the caller's
key exactly once on every completed path: when some tuple was encrypted
under a key other than `k` the call raises the wrong-key error (returning
no data) with exactly one wipe — even when later tuples would have
decrypted — and when every tuple matches `k` the call succeeds, also with
exactly one wipe, performed after all tuples are processed. -/
theorem get_data_wrong_key_wipes_once (priv : List String) (u : Userdict) (code : String)
    (k : Bytes) (info : WebsiteInfo) (trips : List (String × String × Bytes))
    (hc : Binder.is_website_code priv u code = true)
    (hi : dictGet? u code = some info)
    (he : info.encrypted = true)
    (hd : info.data = trips.map (fun x => Binder.encStoredDatum x.2.2 x.1 x.2.1))
    (hv : ∀ x ∈ trips, validKeyBytes x.2.2) :
    (Binder.get_website_data priv u code (some k)).keyWipes = 1 ∧
    ((∃ x ∈ trips, x.2.2 ≠ k) →
      (Binder.get_website_data priv u code (some k)).result = .error .wrongKeyError) ∧
    ((∀ x ∈ trips, x.2.2 = k) →
      (Binder.get_website_data priv u code (some k)).result =
        .ok (trips.map (fun x => (x.1, x.2.1)))) := by
  rw [get_website_data_encrypted priv u code k info hc hi he, hd,
    getDataLoop_enc k trips hv]
  refine ⟨?_, ?_, ?_⟩
  · by_cases hall : trips.all (fun x => decide (x.2.2 = k)) = true <;> simp [hall]
  · intro hex
    have hall : trips.all (fun x => decide (x.2.2 = k)) = false := by
      obtain ⟨x, hx, hne⟩ := hex
      rcases h : trips.all (fun x => decide (x.2.2 = k)) with _ | _
      · rfl
      · exact absurd (of_decide_eq_true (List.all_eq_true.mp h x hx)) hne
    simp [hall]
  · intro hall
    have hall' : trips.all (fun x => decide (x.2.2 = k)) = true :=
      List.all_eq_true.mpr (fun x hx => decide_eq_true (hall x hx))
    have htw : trips.takeWhile (fun x => decide (x.2.2 = k)) = trips :=
      takeWhile_of_all _ trips (fun x hx => decide_eq_true (hall x hx))
    have hdw : trips.dropWhile (fun x => decide (x.2.2 = k)) = [] :=
      dropWhile_of_all _ trips (fun x hx => decide_eq_true (hall x hx))
    simp [hall', htw, hdw]

/-- Witness for C3: a two-entry encrypted site where the first tuple was
encrypted under key `[2]` and the second under key `[1]`; reading with key
`[1]` fails with the wrong-key error and wipes the key exactly once, even
though the second tuple would have decrypted. -/
theorem get_data_wrong_key_wipes_once_witness :
    (Binder.is_website_code []
        [("abc", WebsiteInfo.mk "Site" true
          [Binder.encStoredDatum [2] "a" "x", Binder.encStoredDatum [1] "b" "y"])] "abc" =
        true ∧
     (WebsiteInfo.mk "Site" true
          [Binder.encStoredDatum [2] "a" "x", Binder.encStoredDatum [1] "b" "y"]).data =
        [("a", "x", ([2] : Bytes)), ("b", "y", ([1] : Bytes))].map
          (fun x => Binder.encStoredDatum x.2.2 x.1 x.2.1) ∧
     (∃ x ∈ [("a", "x", ([2] : Bytes)), ("b", "y", ([1] : Bytes))], x.2.2 ≠ [1])) ∧
    ((Binder.get_website_data []
        [("abc", WebsiteInfo.mk "Site" true
          [Binder.encStoredDatum [2] "a" "x", Binder.encStoredDatum [1] "b" "y"])] "abc"
        (some [1])).keyWipes = 1 ∧
     (Binder.get_website_data []
        [("abc", WebsiteInfo.mk "Site" true
          [Binder.encStoredDatum [2] "a" "x", Binder.encStoredDatum [1] "b" "y"])] "abc"
        (some [1])).result = .error .wrongKeyError) := by
  have h := get_data_wrong_key_wipes_once []
    [("abc", WebsiteInfo.mk "Site" true
      [Binder.encStoredDatum [2] "a" "x", Binder.encStoredDatum [1] "b" "y"])] "abc" [1]
    (WebsiteInfo.mk "Site" true
      [Binder.encStoredDatum [2] "a" "x", Binder.encStoredDatum [1] "b" "y"])
    [("a", "x", [2]), ("b", "y", [1])]
    (by decide) (by decide) (by decide) (by decide) (by decide)
  exact ⟨⟨by decide, by decide, ⟨("a", "x", [2]), by decide, by decide⟩⟩,
    h.1, h.2.1 ⟨("a", "x", [2]), by decide, by decide⟩⟩

/-- C10: `get_website_data` on an encrypted site is not read-only — it
replaces each successfully decrypted tuple's ciphertext with its plaintext
inside the store itself (every tuple on success, exactly the prefix before
the first failing tuple on a wrong-key error), while the site's encrypted
flag stays true. -/
theorem get_data_mutates_store_in_place (priv : List String) (u : Userdict) (code : String)
    (k : Bytes) (info : WebsiteInfo) (trips : List (String × String × Bytes))
    (hc : Binder.is_website_code priv u code = true)
    (hi : dictGet? u code = some info)
    (he : info.encrypted = true)
    (hd : info.data = trips.map (fun x => Binder.encStoredDatum x.2.2 x.1 x.2.1))
    (hv : ∀ x ∈ trips, validKeyBytes x.2.2) :
    dictGet? (Binder.get_website_data priv u code (some k)).store code =
      some (WebsiteInfo.mk info.name true
        ((trips.takeWhile (fun x => decide (x.2.2 = k))).map (fun x => (x.1, x.2.1)) ++
         (trips.dropWhile (fun x => decide (x.2.2 = k))).map
           (fun x => Binder.encStoredDatum x.2.2 x.1 x.2.1))) := by
  rw [get_website_data_encrypted priv u code k info hc hi he, hd,
    getDataLoop_enc k trips hv]
  by_cases hall : trips.all (fun x => decide (x.2.2 = k)) = true <;>
    simp [hall, dictGet?_dictSet, he]

/-- Witness for C10: a two-tuple encrypted site whose first tuple was
encrypted under key `[2]` and second under key `[5]`, read with key `[2]`:
the store afterwards holds the first tuple as plaintext, keeps the second
tuple's ciphertext, and the encrypted flag is still true. -/
theorem get_data_mutates_store_in_place_witness :
    (Binder.is_website_code []
        [("s1", WebsiteInfo.mk "N" true
          [Binder.encStoredDatum [2] "u" "p", Binder.encStoredDatum [5] "v" "q"])] "s1" =
        true ∧
     (WebsiteInfo.mk "N" true
        [Binder.encStoredDatum [2] "u" "p", Binder.encStoredDatum [5] "v" "q"]).data =
       [("u", "p", ([2] : Bytes)), ("v", "q", ([5] : Bytes))].map
         (fun x => Binder.encStoredDatum x.2.2 x.1 x.2.1)) ∧
    dictGet? (Binder.get_website_data []
        [("s1", WebsiteInfo.mk "N" true
          [Binder.encStoredDatum [2] "u" "p", Binder.encStoredDatum [5] "v" "q"])] "s1"
        (some [2])).store "s1" =
      some (WebsiteInfo.mk "N" true [("u", "p"), Binder.encStoredDatum [5] "v" "q"]) := by
  have h := get_data_mutates_store_in_place []
    [("s1", WebsiteInfo.mk "N" true
      [Binder.encStoredDatum [2] "u" "p", Binder.encStoredDatum [5] "v" "q"])] "s1" [2]
    (WebsiteInfo.mk "N" true
      [Binder.encStoredDatum [2] "u" "p", Binder.encStoredDatum [5] "v" "q"])
    [("u", "p", [2]), ("v", "q", [5])]
    (by decide) (by decide) (by decide) (by decide) (by decide)
  refine ⟨⟨by decide, by decide⟩, ?_⟩
  rw [h]
  rfl

/-- C4 counterexample: a call to `get_website_data` on a site whose
encrypted flag is false, with a caller-supplied key, returns normally with
zero wipes of the key buffer — the key stays reusable, contradicting the
claim that every accessor receiving a key consumes it on every exit path
regardless of the flag. -/
theorem get_data_unencrypted_key_not_wiped :
    (Binder.get_website_data [] [("abc", WebsiteInfo.mk "Shop" false [("login", "bob")])]
        "abc" (some [7])).keyWipes = 0 ∧
    (Binder.get_website_data [] [("abc", WebsiteInfo.mk "Shop" false [("login", "bob")])]
        "abc" (some [7])).result = .ok [("login", "bob")] ∧
    (Binder.set_website_data [] [("abc", WebsiteInfo.mk "Shop" false [("login", "bob")])]
        "abc" [("login", "eve")] (some [7])).keyWipes = 0 := by
  refine ⟨?_, ?_, ?_⟩ <;> decide

/-- C4 amended: a caller-supplied key buffer is consumed (wiped exactly
once) by `get_website_data` and `set_website_data` exactly when the site's
encrypted flag is true; when the flag is false the key is ignored and not
wiped, and remains reusable by the caller. -/
theorem key_wiped_iff_encrypted (priv : List String) (u : Userdict) (code : String)
    (k : Bytes) (D : List (String × String)) (info : WebsiteInfo)
    (hc : Binder.is_website_code priv u code = true)
    (hi : dictGet? u code = some info) :
    (info.encrypted = true →
      (Binder.get_website_data priv u code (some k)).keyWipes = 1 ∧
      (Binder.set_website_data priv u code D (some k)).keyWipes = 1) ∧
    (info.encrypted = false →
      (Binder.get_website_data priv u code (some k)).keyWipes = 0 ∧
      (Binder.set_website_data priv u code D (some k)).keyWipes = 0) := by
  constructor
  · intro he
    constructor
    · rw [get_website_data_encrypted priv u code k info hc hi he]
      by_cases hb : (Binder.getDataLoop k info.data).2.2 = true <;>
        simp [hb, getDataLoop_wipes]
    · rw [set_website_data_encrypted priv u code D k info hc hi he]
  · intro he
    constructor
    · rw [get_website_data_plain priv u code (some k) info hc hi he]
    · rw [set_website_data_plain priv u code D (some k) info hc hi he]

/-- Witness for the amended C4 at two concrete stores, one encrypted and
one not. -/
theorem key_wiped_iff_encrypted_witness :
    (Binder.is_website_code [] [("e1", WebsiteInfo.mk "E" true [])] "e1" = true ∧
     dictGet? [("e1", WebsiteInfo.mk "E" true [])] "e1" = some (WebsiteInfo.mk "E" true []) ∧
     (WebsiteInfo.mk "E" true []).encrypted = true) ∧
    ((Binder.get_website_data [] [("e1", WebsiteInfo.mk "E" true [])] "e1"
        (some [9])).keyWipes = 1 ∧
     (Binder.set_website_data [] [("e1", WebsiteInfo.mk "E" true [])] "e1" [("t", "v")]
        (some [9])).keyWipes = 1) :=
  ⟨⟨by decide, by decide, by decide⟩,
   (key_wiped_iff_encrypted [] [("e1", WebsiteInfo.mk "E" true [])] "e1" [9] [("t", "v")]
      (WebsiteInfo.mk "E" true []) (by decide) (by decide)).1 (by decide)⟩

/-- C5 (code bug): `Binder.load` never clears the caller's buffer — after
a successful parse of a non-empty serialized store, the buffer still holds
every byte it held before the call, although the method's own docstring
says the data will be deleted from it. -/
theorem load_leaves_buffer_intact :
    (Binder.load (Binder.dump [("abc", WebsiteInfo.mk "Amazon" false [("user", "bob")])])).2 =
      Binder.dump [("abc", WebsiteInfo.mk "Amazon" false [("user", "bob")])] ∧
    Binder.dump [("abc", WebsiteInfo.mk "Amazon" false [("user", "bob")])] ≠ [] ∧
    (Binder.load (Binder.dump [("abc", WebsiteInfo.mk "Amazon" false [("user", "bob")])])).1 =
      some [("abc", WebsiteInfo.mk "Amazon" false [("user", "bob")])] := by
  refine ⟨rfl, by decide, by decide⟩

/-- C6 (code bug): the source's `set_website_data_encryption` omits `self`
from its parameter list, so the documented method invocation fails with
`TypeError` before its body runs, on a store where the claim requires the
call to set the site's encrypted flag; the flag is never changed. -/
theorem set_encryption_method_always_fails :
    (Binder.set_website_data_encryption_method [("abc", WebsiteInfo.mk "Amazon" false [])]
        "abc" true).result = .error .typeError ∧
    (Binder.set_website_data_encryption_method [("abc", WebsiteInfo.mk "Amazon" false [])]
        "abc" true).store = [("abc", WebsiteInfo.mk "Amazon" false [])] ∧
    Binder.is_website_code [] [("abc", WebsiteInfo.mk "Amazon" false [])] "abc" = true := by
  refine ⟨rfl, rfl, by decide⟩

/-- C7: every code returned by `generate_website_code` has the fixed
length, consists of alphanumeric characters only, and is neither a key of
the store (including reserved codes appearing as keys) nor a member of the
reserved-code list; this holds for every store state, hence across calls
interleaved with `add_website`. -/
theorem generate_website_code_fresh (priv : List String) (u : Userdict) (rnd : Nat → Nat)
    (fuel off : Nat) (c : String)
    (h : Binder.generate_website_code priv u rnd fuel off = some c) :
    c.length = Binder.code_lenght ∧ (∀ ch ∈ c.data, ch.isAlphanum = true) ∧
    c ∉ dictKeys u ∧ c ∉ priv := by
  induction fuel generalizing off with
  | zero => exact absurd h (by simp [Binder.generate_website_code])
  | succ n ih =>
    rw [Binder.generate_website_code] at h
    by_cases hcol : Binder.make_code rnd off ∈ Binder.listing_website_codes priv u ∨
        Binder.make_code rnd off ∈ priv
    · rw [if_pos hcol] at h
      exact ih _ h
    · rw [if_neg hcol] at h
      obtain rfl : Binder.make_code rnd off = c := by injection h
      push_neg at hcol
      obtain ⟨hlist, hpriv⟩ := hcol
      refine ⟨?_, ?_, ?_, hpriv⟩
      · simp [Binder.make_code, String.length, Binder.code_lenght]
      · intro ch hch
        simp only [Binder.make_code, List.mem_map] at hch
        obtain ⟨i, -, rfl⟩ := hch
        have hpool : ∀ a ∈ Binder.code_chars, a.isAlphanum = true := by decide
        cases hx : Binder.code_chars[rnd (off + i) % Binder.code_chars.length]? with
        | none =>
          have hdef : Binder.code_chars.getD (rnd (off + i) % Binder.code_chars.length) 'a' =
              'a' := by
            simp [List.getD_eq_getElem?_getD, hx]
          rw [hdef]
          decide
        | some a =>
          have hdef : Binder.code_chars.getD (rnd (off + i) % Binder.code_chars.length) 'a' =
              a := by
            simp [List.getD_eq_getElem?_getD, hx]
          rw [hdef]
          exact hpool a (List.getElem?_mem hx)
      · intro hmem
        exact hlist (List.mem_filter.mpr ⟨hmem, by simpa using hpriv⟩)

/-- Witness for C7: with the reserved list holding the first candidate the
random stream produces, the generator skips it and returns the next, fresh
alphanumeric code of the fixed length. -/
theorem generate_website_code_fresh_witness :
    Binder.generate_website_code ["abcdefghij"] [] (fun i => i) 2 0 = some "klmnopqrst" ∧
    ("klmnopqrst".length = Binder.code_lenght ∧
     (∀ ch ∈ "klmnopqrst".data, ch.isAlphanum = true) ∧
     "klmnopqrst" ∉ dictKeys ([] : Userdict) ∧
     "klmnopqrst" ∉ ["abcdefghij"]) :=
  ⟨by decide,
   generate_website_code_fresh ["abcdefghij"] [] (fun i => i) 2 0 "klmnopqrst" (by decide)⟩

theorem exist_account_ok (fs : FS) (account : String) (ct : Bytes)
    (hv : filesmanager.is_valid_account_name account = .ok true)
    (hct : dictGet? fs account = some ct) :
    filesmanager.exist_account fs account = .ok true := by
  unfold filesmanager.exist_account
  rw [hv]
  simp [hct]

/-- C8: for an existing account, `delete_account` first overwrites the
encrypted blob file with fresh random bytes of the same length as the old
ciphertext, then securely wipes the in-memory buffer that held the old
ciphertext, and only then removes the account's directory tree — the
returned event list exhibits the shred strictly before the unlink. -/
theorem delete_account_shreds_then_unlinks (fs : FS) (rand : Nat → Nat) (account : String)
    (ct : Bytes)
    (hv : filesmanager.is_valid_account_name account = .ok true)
    (hct : dictGet? fs account = some ct) :
    filesmanager.delete_account fs rand account =
      .ok (dictErase fs account,
        [FsEvent.readBlob account ct,
         FsEvent.writeBlob account (encryption.random_bytearray rand ct.length),
         FsEvent.wipeBuffer ct,
         FsEvent.removeTree account]) ∧
    (encryption.random_bytearray rand ct.length).length = ct.length := by
  constructor
  · unfold filesmanager.delete_account
    rw [exist_account_ok fs account ct hv hct]
    simp [hct]
  · simp [encryption.random_bytearray]

/-- Witness for C8 at a concrete one-account filesystem. -/
theorem delete_account_shreds_then_unlinks_witness :
    (filesmanager.is_valid_account_name "alice" = .ok true ∧
     dictGet? [("alice", [1, 2, 3])] "alice" = some [1, 2, 3]) ∧
    (filesmanager.delete_account [("alice", ([1, 2, 3] : Bytes))] (fun i => i) "alice" =
      .ok (dictErase [("alice", [1, 2, 3])] "alice",
        [FsEvent.readBlob "alice" [1, 2, 3],
         FsEvent.writeBlob "alice" (encryption.random_bytearray (fun i => i) 3),
         FsEvent.wipeBuffer [1, 2, 3],
         FsEvent.removeTree "alice"]) ∧
     (encryption.random_bytearray (fun i => i) 3).length = 3) :=
  ⟨⟨by decide, by decide⟩,
   delete_account_shreds_then_unlinks [("alice", [1, 2, 3])] (fun i => i) "alice" [1, 2, 3]
     (by decide) (by decide)⟩

/-- C9: when the Crypto Engine reports a failure, `load_encryptedtext`
wipes the caller's password and pin buffers before surfacing its error,
and `dumps_encryptedtext` wipes the caller's password, pin and data
buffers before surfacing its error (leaving the blob unwritten) — no
secret buffer is left intact on the engine-failure path. -/
theorem engine_failure_wipes_secrets (fs : FS) (account : String) (password pin data : Bytes)
    (encdec encenc : Bytes → Bytes → Bytes → Bool × Nat × Bytes) (ct : Bytes)
    (hv : filesmanager.is_valid_account_name account = .ok true)
    (hct : dictGet? fs account = some ct)
    (hpw : password ≠ []) (hpin : pin ≠ [])
    (hdec : (encdec ct password pin).1 = true)
    (henc : (encenc data password pin).1 = true) :
    filesmanager.load_encryptedtext fs encdec account password pin =
      ⟨fs, true, true, false, .error .computationError⟩ ∧
    filesmanager.dumps_encryptedtext fs encenc account password pin data =
      ⟨fs, true, true, true, .error .computationError⟩ := by
  constructor
  · unfold filesmanager.load_encryptedtext
    rw [exist_account_ok fs account ct hv hct]
    rcases hE : encdec ct password pin with ⟨b, e2, d2⟩
    rw [hE] at hdec
    simp only at hdec
    subst hdec
    simp [if_neg hpw, if_neg hpin, hct, hE]
  · unfold filesmanager.dumps_encryptedtext
    rw [exist_account_ok fs account ct hv hct]
    rcases hE : encenc data password pin with ⟨b, e2, d2⟩
    rw [hE] at henc
    simp only at henc
    subst henc
    simp [if_neg hpw, if_neg hpin, hE]

/-- Witness for C9 with a one-account filesystem and an engine that always
fails. -/
theorem engine_failure_wipes_secrets_witness :
    (filesmanager.is_valid_account_name "alice" = .ok true ∧
     dictGet? [("alice", [1, 2])] "alice" = some [1, 2] ∧
     ([9] : Bytes) ≠ [] ∧ ([8] : Bytes) ≠ [] ∧
     ((fun (_ _ _ : Bytes) => (true, 0, ([] : Bytes))) [1, 2] [9] [8]).1 = true ∧
     ((fun (_ _ _ : Bytes) => (true, 0, ([] : Bytes))) [7] [9] [8]).1 = true) ∧
    (filesmanager.load_encryptedtext [("alice", [1, 2])]
        (fun _ _ _ => (true, 0, [])) "alice" [9] [8] =
      ⟨[("alice", [1, 2])], true, true, false, .error .computationError⟩ ∧
     filesmanager.dumps_encryptedtext [("alice", [1, 2])]
        (fun _ _ _ => (true, 0, [])) "alice" [9] [8] [7] =
      ⟨[("alice", [1, 2])], true, true, true, .error .computationError⟩) :=
  ⟨⟨by decide, by decide, by decide, by decide, rfl, rfl⟩,
   engine_failure_wipes_secrets [("alice", [1, 2])] "alice" [9] [8] [7]
     (fun _ _ _ => (true, 0, [])) (fun _ _ _ => (true, 0, [])) [1, 2]
     (by decide) (by decide) (by decide) (by decide) rfl rfl⟩
